import Mathlib

/-!
Shallow embedding of the webhook-receiver-service request admission pipeline:
the signature service (HMAC-SHA256 generation and timing-safe verification,
`src/auth/services/signature.service.ts`), the signature guard
(`src/auth/guards/signature.guard.ts`), the idempotency interceptor
(`src/common/interceptors/idempotency.interceptor.ts`), and the webhooks
service (`src/webhooks/webhooks.service.ts`), together with theorems settling
the specification claims about them.
-/

/-- JavaScript truthiness of an optional string value: `undefined`/`null` and
the empty string are falsy, every other string is truthy.  Used wherever the
source tests a string with `if (value)` or `value || null`. -/
def truthy : Option String → Bool
  | none => false
  | some s => !s.isEmpty

/-! ### Bytes and 32-bit words

The Node `crypto` collaborator is modelled concretely: bytes are `Nat` values
below 256, 32-bit words are `Nat` values reduced mod `2^32` explicitly. -/

/-- Reduce a natural number to a 32-bit word. -/
def w32 (n : Nat) : Nat := n % 4294967296

/-- Right rotation of a 32-bit word by `n` bits. -/
def rotr32 (x n : Nat) : Nat := (x >>> n) ||| (w32 (x <<< (32 - n)))

/-- SHA-256 `Ch` function. -/
def shaCh (x y z : Nat) : Nat := (x &&& y) ^^^ ((x ^^^ 4294967295) &&& z)

/-- SHA-256 `Maj` function. -/
def shaMaj (x y z : Nat) : Nat := (x &&& y) ^^^ (x &&& z) ^^^ (y &&& z)

/-- SHA-256 big sigma-0. -/
def bigSigma0 (x : Nat) : Nat := rotr32 x 2 ^^^ rotr32 x 13 ^^^ rotr32 x 22

/-- SHA-256 big sigma-1. -/
def bigSigma1 (x : Nat) : Nat := rotr32 x 6 ^^^ rotr32 x 11 ^^^ rotr32 x 25

/-- SHA-256 small sigma-0. -/
def smallSigma0 (x : Nat) : Nat := rotr32 x 7 ^^^ rotr32 x 18 ^^^ (x >>> 3)

/-- SHA-256 small sigma-1. -/
def smallSigma1 (x : Nat) : Nat := rotr32 x 17 ^^^ rotr32 x 19 ^^^ (x >>> 10)

/-- The 64 SHA-256 round constants. -/
def shaK : List Nat :=
  [1116352408, 1899447441, 3049323471, 3921009573, 961987163,
   1508970993, 2453635748, 2870763221, 3624381080, 310598401,
   607225278, 1426881987, 1925078388, 2162078206, 2614888103,
   3248222580, 3835390401, 4022224774, 264347078, 604807628,
   770255983, 1249150122, 1555081692, 1996064986, 2554220882,
   2821834349, 2952996808, 3210313671, 3336571891, 3584528711,
   113926993, 338241895, 666307205, 773529912, 1294757372,
   1396182291, 1695183700, 1986661051, 2177026350, 2456956037,
   2730485921, 2820302411, 3259730800, 3345764771, 3516065817,
   3600352804, 4094571909, 275423344, 430227734, 506948616,
   659060556, 883997877, 958139571, 1322822218, 1537002063,
   1747873779, 1955562222, 2024104815, 2227730452, 2361852424,
   2428436474, 2756734187, 3204031479, 3329325298]

/-- Working state of the SHA-256 compression function (eight 32-bit words). -/
structure Hash8 where
  a : Nat
  b : Nat
  c : Nat
  d : Nat
  e : Nat
  f : Nat
  g : Nat
  h : Nat
deriving DecidableEq, Repr

/-- The SHA-256 initial hash value. -/
def shaInit : Hash8 :=
  ⟨1779033703, 3144134277, 1013904242, 2773480762,
   1359893119, 2600822924, 528734635, 1541459225⟩

/-- One SHA-256 round, consuming a round constant paired with a schedule word. -/
def shaRound (s : Hash8) (kw : Nat × Nat) : Hash8 :=
  let t1 := w32 (s.h + bigSigma1 s.e + shaCh s.e s.f s.g + kw.1 + kw.2)
  let t2 := w32 (bigSigma0 s.a + shaMaj s.a s.b s.c)
  ⟨w32 (t1 + t2), s.a, s.b, s.c, w32 (s.d + t1), s.e, s.f, s.g⟩

/-- Extend a message schedule by `n` further words. -/
def extendSchedule : Nat → List Nat → List Nat
  | 0, ws => ws
  | n + 1, ws =>
    let t := ws.length
    let word := w32 (smallSigma1 (ws.getD (t - 2) 0) + ws.getD (t - 7) 0 +
      smallSigma0 (ws.getD (t - 15) 0) + ws.getD (t - 16) 0)
    extendSchedule n (ws ++ [word])

/-- SHA-256 compression of one 16-word block into the running hash. -/
def compressBlock (h0 : Hash8) (block : List Nat) : Hash8 :=
  let ws := extendSchedule 48 block
  let s := (shaK.zip ws).foldl shaRound h0
  ⟨w32 (h0.a + s.a), w32 (h0.b + s.b), w32 (h0.c + s.c), w32 (h0.d + s.d),
   w32 (h0.e + s.e), w32 (h0.f + s.f), w32 (h0.g + s.g), w32 (h0.h + s.h)⟩

/-- Group bytes into big-endian 32-bit words (four bytes per word). -/
def bytesToWords : List Nat → List Nat
  | b0 :: b1 :: b2 :: b3 :: rest =>
    ((b0 <<< 24) ||| (b1 <<< 16) ||| (b2 <<< 8) ||| b3) :: bytesToWords rest
  | _ => []

/-- Split a padded byte string into 16-word blocks; `fuel` bounds the recursion
and is instantiated with the byte length. -/
def toBlocks : Nat → List Nat → List (List Nat)
  | 0, _ => []
  | _ + 1, [] => []
  | fuel + 1, bytes => bytesToWords (bytes.take 64) :: toBlocks fuel (bytes.drop 64)

/-- Big-endian 8-byte encoding of a bit length. -/
def lenBytes64 (bits : Nat) : List Nat :=
  [(bits >>> 56) &&& 255, (bits >>> 48) &&& 255, (bits >>> 40) &&& 255,
   (bits >>> 32) &&& 255, (bits >>> 24) &&& 255, (bits >>> 16) &&& 255,
   (bits >>> 8) &&& 255, bits &&& 255]

/-- SHA-256 message padding: append `0x80`, zero bytes, and the 64-bit length. -/
def padMessage (msg : List Nat) : List Nat :=
  let len := msg.length
  let zeros := (119 - len % 64) % 64
  msg ++ [128] ++ List.replicate zeros 0 ++ lenBytes64 (8 * len)

/-- Big-endian byte decomposition of a 32-bit word. -/
def wordBytes (w : Nat) : List Nat :=
  [(w >>> 24) &&& 255, (w >>> 16) &&& 255, (w >>> 8) &&& 255, w &&& 255]

/-- SHA-256 of a byte string, as 32 bytes. -/
def sha256Bytes (msg : List Nat) : List Nat :=
  let padded := padMessage msg
  let fin := (toBlocks padded.length padded).foldl compressBlock shaInit
  wordBytes fin.a ++ wordBytes fin.b ++ wordBytes fin.c ++ wordBytes fin.d ++
  wordBytes fin.e ++ wordBytes fin.f ++ wordBytes fin.g ++ wordBytes fin.h

/-- HMAC-SHA256 over byte strings (RFC 2104 with a 64-byte block size),
modelling Node `crypto.createHmac('sha256', key).update(msg).digest()`. -/
def hmacSha256 (key msg : List Nat) : List Nat :=
  let k0 := if key.length > 64 then sha256Bytes key else key
  let kp := k0 ++ List.replicate (64 - k0.length) 0
  let ipad := kp.map (fun b => b ^^^ 54)
  let opad := kp.map (fun b => b ^^^ 92)
  sha256Bytes (opad ++ sha256Bytes (ipad ++ msg))

/-- UTF-8 encoding of a single character. -/
def utf8Char (c : Char) : List Nat :=
  let n := c.toNat
  if n < 128 then [n]
  else if n < 2048 then [192 + n / 64, 128 + n % 64]
  else if n < 65536 then [224 + n / 4096, 128 + (n / 64) % 64, 128 + n % 64]
  else [240 + n / 262144, 128 + (n / 4096) % 64, 128 + (n / 64) % 64, 128 + n % 64]

/-- UTF-8 encoding of a string, modelling Node `Buffer.from(s, 'utf8')`. -/
def utf8Bytes (s : String) : List Nat := s.data.flatMap utf8Char

/-- Lowercase hexadecimal digit for a nibble. -/
def hexDigit (n : Nat) : Char :=
  if n < 10 then Char.ofNat (48 + n) else Char.ofNat (87 + n)

/-- Lowercase hexadecimal rendering of a byte string, as characters. -/
def hexEncodeChars : List Nat → List Char
  | [] => []
  | b :: rest => hexDigit (b / 16) :: hexDigit (b % 16) :: hexEncodeChars rest

/-- Lowercase hexadecimal rendering of a byte string, modelling
`digest('hex')`. -/
def hexEncode (bytes : List Nat) : String := ⟨hexEncodeChars bytes⟩

/-- Hexadecimal value of one character, case-insensitive, `none` when the
character is not a hex digit. -/
def hexVal (c : Char) : Option Nat :=
  if 48 ≤ c.toNat ∧ c.toNat ≤ 57 then some (c.toNat - 48)
  else if 97 ≤ c.toNat ∧ c.toNat ≤ 102 then some (c.toNat - 87)
  else if 65 ≤ c.toNat ∧ c.toNat ≤ 70 then some (c.toNat - 55)
  else none

/-- Node `Buffer.from(s, 'hex')`: decodes two characters per byte and, as the
Node documentation specifies, truncates at the first invalid character and
ignores a trailing lone character. -/
def hexDecodeChars : List Char → List Nat
  | c1 :: c2 :: rest =>
    match hexVal c1, hexVal c2 with
    | some v1, some v2 => (16 * v1 + v2) :: hexDecodeChars rest
    | _, _ => []
  | _ => []

/-! ### SignatureService (`src/auth/services/signature.service.ts`)

The service is constructed with the configured `security.webhookSecret`; the
embedding passes that secret explicitly to each method. -/

/-- The default value of `security.webhookSecret` in the configuration file. -/
def defaultWebhookSecret : String := "default-webhook-secret"

namespace SignatureService

/-- Method `SignatureService.generate`: HMAC-SHA256 of the payload keyed by the
configured secret, rendered as lowercase hex. -/
def generate (webhookSecret payload : String) : String :=
  hexEncode (hmacSha256 (utf8Bytes webhookSecret) (utf8Bytes payload))

/-- Method `SignatureService.verify`: a falsy (`null`/empty) signature is rejected;
otherwise both the supplied signature and the recomputed expected signature are
hex-decoded (`Buffer.from(s, 'hex')`), a length mismatch is rejected, and equal
lengths are compared with `crypto.timingSafeEqual` (equality of the byte
strings).  The `try/catch` in the source makes the function total; the
embedding is total by construction. -/
def verify (webhookSecret payload : String) (signature : Option String) : Bool :=
  if !truthy signature then false
  else
    let expectedSignature := generate webhookSecret payload
    let sigBuffer := hexDecodeChars (signature.getD ("")).data
    let expectedBuffer := hexDecodeChars expectedSignature.data
    if sigBuffer.length ≠ expectedBuffer.length then false
    else sigBuffer == expectedBuffer

end SignatureService

/-! ### Gate results and JSON bodies -/

/-- Outcome of a guard: `canActivate` returning true, or throwing an
HTTP exception carrying the given message. -/
inductive GateResult where
  | allow
  | deny (message : String)
deriving DecidableEq, Repr

mutual
/-- Parsed JSON value, the type of `request.body` after the framework's body
parser has consumed the transmitted bytes. -/
inductive Json where
  | null
  | bool (b : Bool)
  | num (n : Int)
  | str (s : String)
  | arr (elems : JsonList)
  | obj (fields : JsonFields)
inductive JsonList where
  | nil
  | cons (head : Json) (tail : JsonList)
inductive JsonFields where
  | nil
  | cons (key : String) (value : Json) (tail : JsonFields)
end

/-- Escaping of one character inside a JSON string literal: quote and
backslash are escaped, other characters pass through. -/
def jsonEscape (c : Char) : List Char :=
  if c.toNat = 34 then [Char.ofNat 92, Char.ofNat 34]
  else if c.toNat = 92 then [Char.ofNat 92, Char.ofNat 92]
  else [c]

/-- A JSON string literal: quoted and escaped. -/
def jsonQuote (s : String) : String :=
  ⟨Char.ofNat 34 :: (s.data.flatMap jsonEscape ++ [Char.ofNat 34])⟩

mutual
/-- Serialization `JSON.stringify` of a parsed body: compact (no whitespace), object keys in
insertion order. -/
def Json.stringify : Json → String
  | .null => "null"
  | .bool true => "true"
  | .bool false => "false"
  | .num n => toString n
  | .str s => jsonQuote s
  | .arr elems => "[" ++ stringifyList elems ++ "]"
  | .obj fields => "\x7b" ++ stringifyFields fields ++ "\x7d"

def stringifyList : JsonList → String
  | .nil => ""
  | .cons x .nil => Json.stringify x
  | .cons x tail => Json.stringify x ++ "," ++ stringifyList tail

def stringifyFields : JsonFields → String
  | .nil => ""
  | .cons k v .nil => jsonQuote k ++ ":" ++ Json.stringify v
  | .cons k v tail => jsonQuote k ++ ":" ++ Json.stringify v ++ "," ++ stringifyFields tail
end

/-! ### SignatureGuard (`src/auth/guards/signature.guard.ts`) -/

/-- Message of the `ForbiddenException` thrown when the signature header is
absent on a mutating request. -/
def msgSignatureRequired : String := "Webhook signature is required"

/-- Message of the `ForbiddenException` thrown when signature verification
fails. -/
def msgInvalidSignature : String := "Invalid webhook signature"

/-- The HTTP verbs the guard and the idempotency interceptor treat as
mutating: `['POST', 'PUT', 'PATCH']`. -/
def mutatingMethods : List String := ["POST", "PUT", "PATCH"]

/-- An inbound request as the guard sees it.  `rawTransmittedBody` carries the
original bytes the caller sent; the parsed `body` is what the framework hands
to the guard.  The guard never reads the original bytes — it re-serializes the
parsed body (`JSON.stringify(request.body)`). -/
structure GuardRequest where
  method : String
  body : Json
  rawTransmittedBody : String
  signatureHeader : Option String

/-- Method `SignatureGuard.canActivate`: skip-annotated routes admit; non-mutating
methods admit; a falsy signature header denies with
`msgSignatureRequired`; otherwise the expected signature is recomputed over
`JSON.stringify(request.body)` via `SignatureService.verify`, denying with
`msgInvalidSignature` on mismatch. -/
def SignatureGuard.canActivate (webhookSecret : String) (skipSignature : Bool)
    (req : GuardRequest) : GateResult :=
  if skipSignature then .allow
  else if !(mutatingMethods.contains req.method) then .allow
  else if !truthy req.signatureHeader then .deny msgSignatureRequired
  else
    let rawBody := Json.stringify req.body
    let isValid := SignatureService.verify webhookSecret rawBody req.signatureHeader
    if !isValid then .deny msgInvalidSignature
    else .allow

/-! ### ApiKeyGuard (CredentialGate) -/

/-- Message of the `UnauthorizedException` thrown when the API key header is
absent (from the guard's unit tests). -/
def msgApiKeyRequired : String := "API key is required"

/-- Message of the `UnauthorizedException` thrown when the API key does not
match (from the guard's unit tests and the ANALYSIS.md excerpt). -/
def msgInvalidApiKey : String := "Invalid API key"

/-- Modelled from the spec: the ApiKeyGuard (CredentialGate) implementation
file `api-key.guard.ts` is not present under `src/`; only its unit tests and
an excerpt in ANALYSIS.md are.  Policy from spec section 4.2 and the unit
tests: a public route admits unconditionally; a missing credential denies with
`msgApiKeyRequired`; a credential different from the configured value denies
with `msgInvalidApiKey`; otherwise admit. -/
def ApiKeyGuard.canActivate (configuredApiKey : String) (isPublic : Bool)
    (apiKey : Option String) : GateResult :=
  if isPublic then .allow
  else
    match apiKey with
    | none => .deny msgApiKeyRequired
    | some k => if k ≠ configuredApiKey then .deny msgInvalidApiKey else .allow

/-! ### IdempotencyInterceptor (`src/common/interceptors/idempotency.interceptor.ts`)

The in-memory cache (a `Map` from idempotency key to a cached response with
its creation timestamp) is modelled as an association list threaded through
`intercept`; the downstream handler is modelled by its outcome, a success
value or an error. -/

/-- One cache entry: the snapshot of a previously produced response plus its
creation time (`Date.now()` at store time). -/
structure CachedResponse (α : Type) where
  data : α
  timestamp : Nat
deriving DecidableEq, Repr

/-- The interceptor's retention window: `24 * 60 * 60 * 1000` milliseconds. -/
def idempotencyTTL : Nat := 24 * 60 * 60 * 1000

/-- Method `IdempotencyInterceptor.cleanExpiredEntries`: delete every entry whose age
exceeds the TTL.  In the source the age is `now - value.timestamp` on numbers;
entries are only ever stamped in the past, so truncated subtraction agrees. -/
def cleanExpiredEntries {α : Type} (cache : List (String × CachedResponse α))
    (now : Nat) : List (String × CachedResponse α) :=
  cache.filter (fun e => !(now - e.2.timestamp > idempotencyTTL))

/-- Lookup `this.cache.get(key)`. -/
def cacheLookup {α : Type} (cache : List (String × CachedResponse α))
    (key : String) : Option (CachedResponse α) :=
  (cache.find? (fun e => e.1 == key)).map (fun e => e.2)

deriving instance DecidableEq for Except

/-- Observable outcome of one `intercept` call: the cache afterwards, the
response (or propagated handler error), and whether the downstream handler
(`next.handle()` and everything behind it) ran at all. -/
structure InterceptOutcome (α : Type) where
  cache : List (String × CachedResponse α)
  result : Except String α
  handlerInvoked : Bool
deriving DecidableEq, Repr

/-- Method `IdempotencyInterceptor.intercept`: non-mutating methods and falsy
idempotency keys bypass the cache; otherwise expired entries are swept, a hit
replays the stored snapshot without invoking the handler, and a miss runs the
handler, storing its response in the cache only on success (`tap` observes
only success emissions; an error propagates uncached). -/
def intercept {α : Type} (cache : List (String × CachedResponse α))
    (method : String) (idempotencyKey : Option String) (now : Nat)
    (handler : Except String α) : InterceptOutcome α :=
  if !(mutatingMethods.contains method) then ⟨cache, handler, true⟩
  else if !truthy idempotencyKey then ⟨cache, handler, true⟩
  else
    let key := idempotencyKey.getD ("")
    let cleaned := cleanExpiredEntries cache now
    match cacheLookup cleaned key with
    | some cached => ⟨cleaned, .ok cached.data, false⟩
    | none =>
      match handler with
      | .ok data => ⟨cleaned ++ [(key, ⟨data, now⟩)], .ok data, true⟩
      | .error e => ⟨cleaned, .error e, true⟩

/-! ### WebhooksService (`src/webhooks/webhooks.service.ts`)

The persistence collaborator (a TypeORM repository over the `webhooks` table)
is modelled as a list of records in insertion order. -/

/-- The `status` enum of the `webhooks` entity. -/
inductive WebhookStatus where
  | pending
  | processed
  | failed
deriving DecidableEq, Repr

/-- The `webhooks` entity (`webhook.entity.ts`).  The payload is treated as an
opaque structured value (spec section 1) and represented by its serialized
form. -/
structure Webhook where
  id : String
  source : String
  event : String
  payload : String
  signature : Option String
  idempotencyKey : Option String
  receivedAt : Nat
  status : WebhookStatus
deriving DecidableEq, Repr

/-- The validated request body of `POST /webhooks`. -/
structure CreateWebhookDto where
  source : String
  event : String
  payload : String
deriving DecidableEq, Repr

/-- A call made to the persistence collaborator. -/
inductive DbOp where
  | findByIdempotencyKey (key : String)
  | insert (record : Webhook)
deriving DecidableEq, Repr

/-- Failure of the persistence collaborator. -/
inductive DbError where
  | uniqueViolation
deriving DecidableEq, Repr

/-- Query `repository.findOne` by `idempotencyKey`: the first stored
record carrying the given key. -/
def findByKey (repo : List Webhook) (key : String) : Option Webhook :=
  repo.find? (fun w => w.idempotencyKey == some key)

/-- The persistence collaborator's insert (`repository.save`): the
`idempotencyKey` column is declared `unique: true` in `webhook.entity.ts`, so
a duplicate non-null key is rejected with a unique-constraint violation;
`receivedAt` is a `@CreateDateColumn` assigned at insert time. -/
def dbInsert (repo : List Webhook) (w : Webhook) (now : Nat) :
    Except DbError (List Webhook × Webhook) :=
  match w.idempotencyKey with
  | some k =>
    if (findByKey repo k).isSome then .error .uniqueViolation
    else
      let saved := { w with receivedAt := now }
      .ok (repo ++ [saved], saved)
  | none =>
    let saved := { w with receivedAt := now }
    .ok (repo ++ [saved], saved)

/-- Result of `WebhooksService.create`, together with the repository state
afterwards and the calls made to the persistence collaborator. -/
structure CreateResult where
  repo : List Webhook
  webhook : Webhook
  isNew : Bool
  ops : List DbOp
deriving DecidableEq, Repr

/-- Method `WebhooksService.create`.  The two repository arguments model the
concurrency of spec section 5: `repoAtLookup` is the persisted state the
idempotency `findOne` observes and `repoAtSave` the state the subsequent
`save` runs against; under sequential execution the two coincide, under a
concurrent duplicate delivery a record with the same key may land in between.
A truthy idempotency key is looked up first, returning the existing record
with `isNew = false` and no write when found; otherwise a fresh record is
built (`signature || null`, `idempotencyKey || null`, status pending) and
saved.  The source wraps nothing in try/catch, so a `save` rejection
propagates to the caller unchanged. -/
def create (repoAtLookup repoAtSave : List Webhook) (freshId : String)
    (dto : CreateWebhookDto) (signature idempotencyKey : Option String)
    (now : Nat) : Except DbError CreateResult :=
  let key := idempotencyKey.getD ("")
  let lookupOps := if truthy idempotencyKey then [DbOp.findByIdempotencyKey key] else []
  match (if truthy idempotencyKey then findByKey repoAtLookup key else none) with
  | some existing => .ok ⟨repoAtLookup, existing, false, lookupOps⟩
  | none =>
    let webhook : Webhook :=
      { id := freshId, source := dto.source, event := dto.event,
        payload := dto.payload,
        signature := if truthy signature then signature else none,
        idempotencyKey := if truthy idempotencyKey then idempotencyKey else none,
        receivedAt := 0, status := .pending }
    match dbInsert repoAtSave webhook now with
    | .ok (repo, saved) => .ok ⟨repo, saved, true, lookupOps ++ [DbOp.insert saved]⟩
    | .error e => .error e

/-- The projection applied to every returned record
(`WebhookResponseDto.fromEntity`): drops `signature` and `idempotencyKey`. -/
structure WebhookResponseDto where
  id : String
  source : String
  event : String
  payload : String
  receivedAt : Nat
  status : WebhookStatus
deriving DecidableEq, Repr

/-- Projection `WebhookResponseDto.fromEntity`. -/
def WebhookResponseDto.fromEntity (w : Webhook) : WebhookResponseDto :=
  ⟨w.id, w.source, w.event, w.payload, w.receivedAt, w.status⟩

/-- The query of `GET /webhooks`; all fields optional, with `page = 1` and
`limit = 20` applied as destructuring defaults inside `findAll`.  The DTO's
validation admits only positive integral `page` and `limit`. -/
structure QueryWebhookDto where
  page : Option Nat
  limit : Option Nat
  source : Option String
  event : Option String
deriving DecidableEq, Repr

/-- Pagination metadata returned by `findAll`. -/
structure PaginationMeta where
  total : Nat
  page : Nat
  limit : Nat
  totalPages : Nat
deriving DecidableEq, Repr

/-- Return value of `findAll`. -/
structure PaginatedWebhooksResponseDto where
  data : List WebhookResponseDto
  meta : PaginationMeta
deriving DecidableEq, Repr

/-- Ordering used by `orderBy('webhook.receivedAt', 'DESC')`: newest first. -/
def receivedDesc (a b : Webhook) : Prop := b.receivedAt ≤ a.receivedAt

instance : DecidableRel receivedDesc := fun a b => Nat.decLe b.receivedAt a.receivedAt

instance : IsTotal Webhook receivedDesc :=
  ⟨fun a b => le_total b.receivedAt a.receivedAt⟩

instance : IsTrans Webhook receivedDesc :=
  ⟨fun _ _ _ hab hbc => le_trans hbc hab⟩

/-- The `andWhere` filters of `findAll`: a truthy `source` (resp. `event`)
restricts to records matching it exactly; a falsy one adds no condition. -/
def matchesQuery (q : QueryWebhookDto) (w : Webhook) : Bool :=
  (if truthy q.source then w.source == q.source.getD ("") else true) &&
  (if truthy q.event then w.event == q.event.getD ("") else true)

/-- Method `WebhooksService.findAll`: filter, order by `receivedAt` descending, skip
`(page - 1) * limit`, take `limit`, and report
`totalPages = Math.ceil(total / limit)` — embedded as
`(total + limit - 1) / limit`, which agrees with the ceiling for the positive
limits the query DTO admits. -/
def findAll (repo : List Webhook) (query : QueryWebhookDto) :
    PaginatedWebhooksResponseDto :=
  let page := query.page.getD 1
  let limit := query.limit.getD 20
  let skip := (page - 1) * limit
  let filtered := repo.filter (matchesQuery query)
  let sorted := filtered.insertionSort receivedDesc
  let paged := (sorted.drop skip).take limit
  let total := filtered.length
  ⟨paged.map WebhookResponseDto.fromEntity,
   ⟨total, page, limit, (total + limit - 1) / limit⟩⟩

/-! ### Helper lemmas about hex encoding and digests -/

theorem hexVal_hexDigit : ∀ n < 16, hexVal (hexDigit n) = some n := by decide

theorem hexEncodeChars_length (l : List Nat) :
    (hexEncodeChars l).length = 2 * l.length := by
  induction l with
  | nil => rfl
  | cons b tl ih => simp [hexEncodeChars, ih]; omega

theorem hexDecode_encode_append (d : List Nat) (hd : ∀ b ∈ d, b < 256)
    (rest : List Char) :
    hexDecodeChars (hexEncodeChars d ++ rest) = d ++ hexDecodeChars rest := by
  induction d with
  | nil => rfl
  | cons b tl ih =>
    have hb : b < 256 := hd b (by simp)
    have h1 : hexVal (hexDigit (b / 16)) = some (b / 16) :=
      hexVal_hexDigit _ (by omega)
    have h2 : hexVal (hexDigit (b % 16)) = some (b % 16) :=
      hexVal_hexDigit _ (by omega)
    have htl : ∀ x ∈ tl, x < 256 := fun x hx => hd x (by simp [hx])
    simp [hexEncodeChars, hexDecodeChars, h1, h2, ih htl]
    omega

theorem hexDecode_encode (d : List Nat) (hd : ∀ b ∈ d, b < 256) :
    hexDecodeChars (hexEncodeChars d) = d := by
  have := hexDecode_encode_append d hd []
  simpa [hexDecodeChars] using this

theorem wordBytes_lt (w : Nat) : ∀ b ∈ wordBytes w, b < 256 := by
  intro b hb
  simp [wordBytes] at hb
  rcases hb with h | h | h | h <;>
    exact h ▸ Nat.lt_succ_of_le Nat.and_le_right

theorem wordBytes_length (w : Nat) : (wordBytes w).length = 4 := rfl

theorem sha256Bytes_lt (msg : List Nat) : ∀ b ∈ sha256Bytes msg, b < 256 := by
  intro b hb
  simp only [sha256Bytes, List.mem_append] at hb
  rcases hb with ((((((h | h) | h) | h) | h) | h) | h) | h <;>
    exact wordBytes_lt _ _ h

theorem sha256Bytes_length (msg : List Nat) : (sha256Bytes msg).length = 32 := by
  simp [sha256Bytes, wordBytes]

theorem hmacSha256_lt (key msg : List Nat) : ∀ b ∈ hmacSha256 key msg, b < 256 := by
  intro b hb
  simp only [hmacSha256] at hb
  exact sha256Bytes_lt _ _ hb

theorem hmacSha256_length (key msg : List Nat) : (hmacSha256 key msg).length = 32 := by
  simp only [hmacSha256]
  exact sha256Bytes_length _

theorem generate_data (secret payload : String) :
    (SignatureService.generate secret payload).data =
      hexEncodeChars (hmacSha256 (utf8Bytes secret) (utf8Bytes payload)) := rfl

theorem generate_data_length (secret payload : String) :
    (SignatureService.generate secret payload).data.length = 64 := by
  rw [generate_data, hexEncodeChars_length, hmacSha256_length]

theorem generate_isEmpty (secret payload : String) :
    (SignatureService.generate secret payload).isEmpty = false := by
  rw [Bool.eq_false_iff]
  intro he
  rw [String.isEmpty_iff] at he
  have := generate_data_length secret payload
  rw [he] at this
  simp at this

theorem decode_generate (secret payload : String) :
    hexDecodeChars (SignatureService.generate secret payload).data =
      hmacSha256 (utf8Bytes secret) (utf8Bytes payload) := by
  rw [generate_data]
  exact hexDecode_encode _ (hmacSha256_lt _ _)

/-- Behaviour of `verify` on a non-empty signature string: hex-decode it
(with Node truncation), compare lengths with the 32-byte digest, then compare
bytes. -/
theorem verify_some_eq (secret payload s : String) (hs : s.isEmpty = false) :
    SignatureService.verify secret payload (some s) =
      (if (hexDecodeChars s.data).length ≠ 32 then false
       else hexDecodeChars s.data ==
         hmacSha256 (utf8Bytes secret) (utf8Bytes payload)) := by
  have hd := decode_generate secret payload
  have hl : (hexDecodeChars (SignatureService.generate secret payload).data).length = 32 := by
    rw [hd]; exact hmacSha256_length _ _
  simp only [SignatureService.verify, truthy, hs, Bool.not_false, if_true,
    Option.getD_some, hd, hl]
  rfl

theorem set_getD_self {α : Type} (l : List α) (j : Nat) (hj : j < l.length) (a : α) :
    l.set j (l.getD j a) = l := by
  induction l generalizing j with
  | nil => simp at hj
  | cons x xs ih =>
    match j with
    | 0 => simp
    | k + 1 =>
      simp only [List.getD_cons_succ, List.set_cons_succ]
      rw [ih k (by simpa using hj)]

theorem mk_isEmpty_false (l : List Char) (h : l ≠ []) :
    (String.mk l).isEmpty = false := by
  rw [Bool.eq_false_iff]
  intro he
  rw [String.isEmpty_iff, String.ext_iff] at he
  exact h he

/-- Hex-decoding an encoded byte string with one character overwritten by a
non-hex character: Node truncates at the damaged pair, yielding only the bytes
before it. -/
theorem decode_set_invalid (d : List Nat) (hd : ∀ b ∈ d, b < 256) (i : Nat)
    (c : Char) (hi : i < 2 * d.length) (hc : hexVal c = none) :
    hexDecodeChars ((hexEncodeChars d).set i c) = d.take (i / 2) := by
  induction d generalizing i with
  | nil => simp at hi
  | cons b tl ih =>
    have hb : b < 256 := hd b (by simp)
    have h1 : hexVal (hexDigit (b / 16)) = some (b / 16) :=
      hexVal_hexDigit _ (by omega)
    have h2 : hexVal (hexDigit (b % 16)) = some (b % 16) :=
      hexVal_hexDigit _ (by omega)
    have htl : ∀ x ∈ tl, x < 256 := fun x hx => hd x (by simp [hx])
    match i with
    | 0 => simp [hexEncodeChars, hexDecodeChars, hc]
    | 1 => simp [hexEncodeChars, hexDecodeChars, h1, hc]
    | k + 2 =>
      have hk : k < 2 * tl.length := by
        simp only [List.length_cons] at hi; omega
      have harith : (k + 2) / 2 = k / 2 + 1 := by omega
      have hbeq : 16 * (b / 16) + b % 16 = b := by omega
      simp only [hexEncodeChars, List.set_cons_succ, hexDecodeChars, h1, h2,
        ih htl k hk, harith, List.take_succ_cons, hbeq]

/-- Hex-decoding an encoded byte string with one character overwritten by a
(possibly different-case) hex character: the byte containing it is rebuilt
from the new nibble. -/
theorem decode_set_valid (d : List Nat) (hd : ∀ b ∈ d, b < 256) (i : Nat)
    (c : Char) (v : Nat) (hi : i < 2 * d.length) (hc : hexVal c = some v) :
    hexDecodeChars ((hexEncodeChars d).set i c) =
      d.set (i / 2) (if i % 2 = 0 then 16 * v + d.getD (i / 2) 0 % 16
        else 16 * (d.getD (i / 2) 0 / 16) + v) := by
  induction d generalizing i with
  | nil => simp at hi
  | cons b tl ih =>
    have hb : b < 256 := hd b (by simp)
    have h1 : hexVal (hexDigit (b / 16)) = some (b / 16) :=
      hexVal_hexDigit _ (by omega)
    have h2 : hexVal (hexDigit (b % 16)) = some (b % 16) :=
      hexVal_hexDigit _ (by omega)
    have htl : ∀ x ∈ tl, x < 256 := fun x hx => hd x (by simp [hx])
    match i with
    | 0 =>
      simp [hexEncodeChars, hexDecodeChars, hc, h2, hexDecode_encode tl htl]
    | 1 =>
      simp [hexEncodeChars, hexDecodeChars, hc, h1, hexDecode_encode tl htl]
    | k + 2 =>
      have hk : k < 2 * tl.length := by
        simp only [List.length_cons] at hi; omega
      have harith : (k + 2) / 2 = k / 2 + 1 := by omega
      have hmod : (k + 2) % 2 = k % 2 := by omega
      have hbeq : 16 * (b / 16) + b % 16 = b := by omega
      simp only [hexEncodeChars, List.set_cons_succ, hexDecodeChars, h1, h2,
        ih htl k hk, harith, hmod, List.set_cons_succ, List.getD_cons_succ, hbeq]

/-- The character at position `i` of a hex encoding is the hex digit of the
corresponding nibble. -/
theorem henc_getD (d : List Nat) (i : Nat) (hi : i < 2 * d.length) (df : Char) :
    (hexEncodeChars d).getD i df =
      if i % 2 = 0 then hexDigit (d.getD (i / 2) 0 / 16)
      else hexDigit (d.getD (i / 2) 0 % 16) := by
  induction d generalizing i with
  | nil => simp at hi
  | cons b tl ih =>
    match i with
    | 0 => simp [hexEncodeChars]
    | 1 => simp [hexEncodeChars]
    | k + 2 =>
      have hk : k < 2 * tl.length := by
        simp only [List.length_cons] at hi; omega
      have harith : (k + 2) / 2 = k / 2 + 1 := by omega
      have hmod : (k + 2) % 2 = k % 2 := by omega
      simp only [hexEncodeChars, List.getD_cons_succ, ih k hk, harith, hmod,
        List.getD_cons_succ]

theorem verify_generate_true (secret payload : String) :
    SignatureService.verify secret payload
      (some (SignatureService.generate secret payload)) = true := by
  rw [verify_some_eq _ _ _ (generate_isEmpty _ _), decode_generate, hmacSha256_length]
  simp

theorem verify_append_z (secret payload : String) :
    SignatureService.verify secret payload
      (some (SignatureService.generate secret payload ++ "z")) = true := by
  have hdata : (SignatureService.generate secret payload ++ "z").data =
      hexEncodeChars (hmacSha256 (utf8Bytes secret) (utf8Bytes payload)) ++ ['z'] := by
    rw [String.data_append, generate_data]
  have hne : (SignatureService.generate secret payload ++ "z").isEmpty = false := by
    rw [Bool.eq_false_iff]
    intro he
    rw [String.isEmpty_iff, String.ext_iff] at he
    rw [hdata] at he
    simpa [hexEncodeChars_length, hmacSha256_length] using congrArg List.length he
  rw [verify_some_eq _ _ _ hne, hdata,
    hexDecode_encode_append _ (hmacSha256_lt _ _) ['z']]
  have hz : hexDecodeChars ['z'] = [] := rfl
  rw [hz, List.append_nil, hmacSha256_length]
  simp

theorem getD_mem (l : List Nat) (j : Nat) (hj : j < l.length) :
    l.getD j 0 ∈ l := by
  rw [List.getD_eq_getElem l 0 hj]
  exact l.getElem_mem hj

theorem verify_flip_core (secret payload : String) (i : Nat) (c : Char)
    (hi : i < 64) :
    (hexVal c ≠ hexVal ((SignatureService.generate secret payload).data.getD i (Char.ofNat 0)) →
      SignatureService.verify secret payload
        (some (String.mk ((SignatureService.generate secret payload).data.set i c))) = false)
  ∧ (hexVal c = hexVal ((SignatureService.generate secret payload).data.getD i (Char.ofNat 0)) →
      SignatureService.verify secret payload
        (some (String.mk ((SignatureService.generate secret payload).data.set i c))) = true) := by
  have hdlt := hmacSha256_lt (utf8Bytes secret) (utf8Bytes payload)
  have hdlen := hmacSha256_length (utf8Bytes secret) (utf8Bytes payload)
  set d := hmacSha256 (utf8Bytes secret) (utf8Bytes payload) with hd_def
  have hi' : i < 2 * d.length := by omega
  have hj : i / 2 < d.length := by omega
  have hdata : (SignatureService.generate secret payload).data = hexEncodeChars d :=
    generate_data _ _
  have hb : d.getD (i / 2) 0 < 256 := hdlt _ (getD_mem d (i / 2) hj)
  have horig : (SignatureService.generate secret payload).data.getD i (Char.ofNat 0) =
      if i % 2 = 0 then hexDigit (d.getD (i / 2) 0 / 16)
      else hexDigit (d.getD (i / 2) 0 % 16) := by
    rw [hdata]
    exact henc_getD d i hi' _
  have horigval : hexVal ((SignatureService.generate secret payload).data.getD i (Char.ofNat 0)) =
      some (if i % 2 = 0 then d.getD (i / 2) 0 / 16 else d.getD (i / 2) 0 % 16) := by
    rw [horig]
    by_cases hpar : i % 2 = 0
    · rw [if_pos hpar, if_pos hpar]
      exact hexVal_hexDigit _ (by omega)
    · rw [if_neg hpar, if_neg hpar]
      exact hexVal_hexDigit _ (by omega)
  have hsetlen : ((hexEncodeChars d).set i c).length = 64 := by
    rw [List.length_set, hexEncodeChars_length]
    omega
  have hne : (String.mk ((SignatureService.generate secret payload).data.set i c)).isEmpty = false := by
    apply mk_isEmpty_false
    rw [hdata]
    intro he
    rw [he] at hsetlen
    simp at hsetlen
  have hveq := verify_some_eq secret payload
    (String.mk ((SignatureService.generate secret payload).data.set i c)) hne
  rw [hdata] at hveq
  rw [← hd_def] at hveq
  clear_value d
  constructor
  · intro hnev
    rw [horigval] at hnev
    rw [hdata, hveq]
    rcases hc : hexVal c with _ | v
    · rw [decode_set_invalid d hdlt i c hi' hc]
      have htk : (d.take (i / 2)).length = i / 2 := by
        rw [List.length_take]
        omega
      rw [if_pos (by omega : (d.take (i / 2)).length ≠ 32)]
    · rw [decode_set_valid d hdlt i c v hi' hc]
      rw [if_neg (by rw [List.length_set]; omega)]
      rw [hc] at hnev
      have hvne : v ≠ (if i % 2 = 0 then d.getD (i / 2) 0 / 16 else d.getD (i / 2) 0 % 16) := by
        intro hv
        exact hnev (by rw [hv])
      rw [beq_eq_false_iff_ne]
      intro heq
      have hj' : i / 2 < (d.set (i / 2)
          (if i % 2 = 0 then 16 * v + d.getD (i / 2) 0 % 16
           else 16 * (d.getD (i / 2) 0 / 16) + v)).length := by
        rw [List.length_set]
        omega
      have h1 : (d.set (i / 2)
          (if i % 2 = 0 then 16 * v + d.getD (i / 2) 0 % 16
           else 16 * (d.getD (i / 2) 0 / 16) + v)).getD (i / 2) 0 =
          (if i % 2 = 0 then 16 * v + d.getD (i / 2) 0 % 16
           else 16 * (d.getD (i / 2) 0 / 16) + v) := by
        rw [List.getD_eq_getElem _ 0 hj', List.getElem_set_self hj']
      have h2 := congrArg (fun l => l.getD (i / 2) 0) heq
      simp only [h1] at h2
      by_cases hpar : i % 2 = 0
      · rw [if_pos hpar] at h2
        rw [if_pos hpar] at hvne
        omega
      · rw [if_neg hpar] at h2
        rw [if_neg hpar] at hvne
        omega
  · intro hev
    rw [horigval] at hev
    rw [hdata, hveq]
    rcases hc : hexVal c with _ | v
    · rw [hc] at hev
      cases hev
    · rw [decode_set_valid d hdlt i c v hi' hc]
      rw [if_neg (by rw [List.length_set]; omega)]
      rw [hc] at hev
      have hv : v = (if i % 2 = 0 then d.getD (i / 2) 0 / 16 else d.getD (i / 2) 0 % 16) :=
        Option.some.inj hev
      have hbyte : (if i % 2 = 0 then 16 * v + d.getD (i / 2) 0 % 16
          else 16 * (d.getD (i / 2) 0 / 16) + v) = d.getD (i / 2) 0 := by
        by_cases hpar : i % 2 = 0
        · rw [if_pos hpar] at hv ⊢
          omega
        · rw [if_neg hpar] at hv ⊢
          omega
      rw [hbyte, set_getD_self d (i / 2) hj 0]
      simp

theorem verify_wrong_length_false (secret payload s : String)
    (h : (hexDecodeChars s.data).length ≠ 32) :
    SignatureService.verify secret payload (some s) = false := by
  cases he : s.isEmpty with
  | true => simp [SignatureService.verify, truthy, he]
  | false =>
    rw [verify_some_eq _ _ _ he, if_pos h]

/-- C4 (amended): for every payload and configured secret,
`verify(P, generate(P))` is true; a single-character flip of `generate(P)`
makes `verify` return false whenever the new character's hexadecimal value
differs from the original's (a different hex digit, or a non-hex character),
but a flip that preserves the hexadecimal value — replacing a lowercase hex
letter by its uppercase counterpart — still verifies, because Node hex
decoding is case-insensitive. -/
theorem verify_roundtrip_and_single_flip (secret payload : String) (i : Nat)
    (c : Char) (hi : i < 64) :
    SignatureService.verify secret payload
      (some (SignatureService.generate secret payload)) = true
  ∧ (hexVal c ≠ hexVal ((SignatureService.generate secret payload).data.getD i (Char.ofNat 0)) →
      SignatureService.verify secret payload
        (some (String.mk ((SignatureService.generate secret payload).data.set i c))) = false)
  ∧ (hexVal c = hexVal ((SignatureService.generate secret payload).data.getD i (Char.ofNat 0)) →
      SignatureService.verify secret payload
        (some (String.mk ((SignatureService.generate secret payload).data.set i c))) = true) :=
  ⟨verify_generate_true secret payload,
   (verify_flip_core secret payload i c hi).1,
   (verify_flip_core secret payload i c hi).2⟩

set_option maxRecDepth 1000000 in
/-- Witness for C4 at a concrete input: the generated signature for the empty
payload under the default secret verifies, and flipping its first character to
the non-hex character `X` makes verification fail. -/
theorem verify_roundtrip_and_single_flip_witness :
    SignatureService.verify defaultWebhookSecret ("")
      (some (SignatureService.generate defaultWebhookSecret (""))) = true
  ∧ SignatureService.verify defaultWebhookSecret ("")
      (some (String.mk ((SignatureService.generate defaultWebhookSecret ("")).data.set 0 'X'))) = false := by
  have h := verify_roundtrip_and_single_flip defaultWebhookSecret ("") 0 'X' (by decide)
  exact ⟨h.1, h.2.1 (by decide)⟩

set_option maxRecDepth 1000000 in
/-- C4 counterexample: the claimed property that verify is false for every
single-character flip fails.  For the empty payload under the default secret the generated
signature starts with `a`; flipping that single character to `A` yields a
different string that still verifies. -/
theorem verify_single_flip_counterexample :
    SignatureService.generate defaultWebhookSecret ("") =
      "ada2689e88d772032c8a09be99d2eca5b8aa2d62cbfe5807423d12fa5654dc5c"
  ∧ ("Ada2689e88d772032c8a09be99d2eca5b8aa2d62cbfe5807423d12fa5654dc5c" : String) ≠
      SignatureService.generate defaultWebhookSecret ("")
  ∧ ("Ada2689e88d772032c8a09be99d2eca5b8aa2d62cbfe5807423d12fa5654dc5c" : String).data =
      (SignatureService.generate defaultWebhookSecret ("")).data.set 0 'A'
  ∧ SignatureService.verify defaultWebhookSecret ("")
      (some ("Ada2689e88d772032c8a09be99d2eca5b8aa2d62cbfe5807423d12fa5654dc5c")) = true := by
  have hg : SignatureService.generate defaultWebhookSecret ("") =
      "ada2689e88d772032c8a09be99d2eca5b8aa2d62cbfe5807423d12fa5654dc5c" := by decide
  have hdataeq : ("Ada2689e88d772032c8a09be99d2eca5b8aa2d62cbfe5807423d12fa5654dc5c" : String).data =
      (SignatureService.generate defaultWebhookSecret ("")).data.set 0 'A' := by
    rw [hg]
    decide
  have hflip := (verify_flip_core defaultWebhookSecret ("") 0 'A' (by decide)).2 (by rw [hg]; decide)
  refine ⟨hg, by rw [hg]; decide, hdataeq, ?_⟩
  have hstr : ("Ada2689e88d772032c8a09be99d2eca5b8aa2d62cbfe5807423d12fa5654dc5c" : String) =
      String.mk ((SignatureService.generate defaultWebhookSecret ("")).data.set 0 'A') :=
    String.ext hdataeq
  rw [hstr]
  exact hflip

/-- C5 (amended): `verify` is total and never raises; it returns false for a
null/absent signature, for the empty signature, and for every signature whose
Node hex decoding (which truncates at the first invalid character and drops a
trailing lone character) yields a byte string of different length than the
32-byte HMAC-SHA256 digest.  However, a signature that is not valid
hexadecimal does not always return false: a string whose decodable prefix
equals the expected digest — such as the correct signature followed by
non-hex junk — verifies as true. -/
theorem verify_malformed_inputs (secret payload s : String)
    (hlen : (hexDecodeChars s.data).length ≠ 32) :
    SignatureService.verify secret payload none = false
  ∧ SignatureService.verify secret payload (some ("")) = false
  ∧ SignatureService.verify secret payload (some s) = false
  ∧ SignatureService.verify secret payload
      (some (SignatureService.generate secret payload ++ "z")) = true :=
  ⟨by simp [SignatureService.verify, truthy],
   by simp [SignatureService.verify, truthy, String.isEmpty],
   verify_wrong_length_false secret payload s hlen,
   verify_append_z secret payload⟩

set_option maxRecDepth 1000000 in
/-- Witness for C5 at a concrete input: the signature string `abc` hex-decodes
to a single byte, so its length mismatches the digest and verification fails;
null and empty signatures fail; the generated signature with a trailing `z`
still verifies. -/
theorem verify_malformed_inputs_witness :
    SignatureService.verify defaultWebhookSecret ("x") none = false
  ∧ SignatureService.verify defaultWebhookSecret ("x") (some ("")) = false
  ∧ SignatureService.verify defaultWebhookSecret ("x") (some ("abc")) = false
  ∧ SignatureService.verify defaultWebhookSecret ("x")
      (some (SignatureService.generate defaultWebhookSecret ("x") ++ "z")) = true :=
  verify_malformed_inputs defaultWebhookSecret ("x") "abc" (by decide)

/-- C5 counterexample: a signature that is not valid hexadecimal (it contains
the non-hex character `z`) for which `verify` nevertheless returns true,
because Node hex decoding truncates at the invalid character and the decoded
prefix equals the expected digest. -/
theorem verify_nonhex_counterexample :
    (SignatureService.generate defaultWebhookSecret ("") ++ "z").data.any
      (fun c => (hexVal c).isNone) = true
  ∧ SignatureService.verify defaultWebhookSecret ("")
      (some (SignatureService.generate defaultWebhookSecret ("") ++ "z")) = true := by
  constructor
  · rw [String.data_append, List.any_append]
    have hz : ("z" : String).data.any (fun c => (hexVal c).isNone) = true := by decide
    rw [hz, Bool.or_true]
  · exact verify_append_z defaultWebhookSecret ("")

theorem isEmpty_false_of_ne (s : String) (h : s ≠ "") : s.isEmpty = false := by
  rw [Bool.eq_false_iff]
  intro he
  exact h ((String.isEmpty_iff s).mp he)

/-- C3: the SignatureGuard decision procedure.  Skip-annotated routes admit;
non-mutating methods admit without a signature; on a mutating method a falsy
signature header denies with the signature-required message; otherwise the
outcome is exactly the result of `SignatureService.verify` applied to
`JSON.stringify(request.body)` — and the decision never depends on the
original transmitted bytes, only on the re-serialized parsed body. -/
theorem signatureGuard_decision (webhookSecret : String) (skipSignature : Bool)
    (req : GuardRequest) :
    (skipSignature = true →
      SignatureGuard.canActivate webhookSecret skipSignature req = .allow)
  ∧ (mutatingMethods.contains req.method = false →
      SignatureGuard.canActivate webhookSecret skipSignature req = .allow)
  ∧ (skipSignature = false → mutatingMethods.contains req.method = true →
      truthy req.signatureHeader = false →
      SignatureGuard.canActivate webhookSecret skipSignature req =
        .deny msgSignatureRequired)
  ∧ (skipSignature = false → mutatingMethods.contains req.method = true →
      truthy req.signatureHeader = true →
      SignatureGuard.canActivate webhookSecret skipSignature req =
        (if SignatureService.verify webhookSecret (Json.stringify req.body) req.signatureHeader
         then .allow else .deny msgInvalidSignature))
  ∧ (∀ raw : String,
      SignatureGuard.canActivate webhookSecret skipSignature
        { req with rawTransmittedBody := raw } =
      SignatureGuard.canActivate webhookSecret skipSignature req) := by
  refine ⟨?_, ?_, ?_, ?_, fun raw => rfl⟩
  · intro h
    simp [SignatureGuard.canActivate, h]
  · intro h
    have hmem : req.method ∉ mutatingMethods := by simpa using h
    by_cases hs : skipSignature <;> simp [SignatureGuard.canActivate, hs, hmem]
  · intro h1 h2 h3
    have hmem : req.method ∈ mutatingMethods := by simpa using h2
    simp [SignatureGuard.canActivate, h1, hmem, h3]
  · intro h1 h2 h3
    have hmem : req.method ∈ mutatingMethods := by simpa using h2
    by_cases hv : SignatureService.verify webhookSecret (Json.stringify req.body) req.signatureHeader <;>
      simp [SignatureGuard.canActivate, h1, hmem, h3, hv]

/-- Witness for C3 at concrete requests: a skip-annotated POST admits, a GET
without a signature admits, and a POST without a signature header is denied
with the signature-required message. -/
theorem signatureGuard_decision_witness :
    SignatureGuard.canActivate defaultWebhookSecret true
      ⟨"POST", Json.obj JsonFields.nil, "", none⟩ = .allow
  ∧ SignatureGuard.canActivate defaultWebhookSecret false
      ⟨"GET", Json.obj JsonFields.nil, "", none⟩ = .allow
  ∧ SignatureGuard.canActivate defaultWebhookSecret false
      ⟨"POST", Json.obj JsonFields.nil, "", none⟩ = .deny msgSignatureRequired :=
  ⟨(signatureGuard_decision defaultWebhookSecret true
      ⟨"POST", Json.obj JsonFields.nil, "", none⟩).1 rfl,
   (signatureGuard_decision defaultWebhookSecret false
      ⟨"GET", Json.obj JsonFields.nil, "", none⟩).2.1 (by decide),
   (signatureGuard_decision defaultWebhookSecret false
      ⟨"POST", Json.obj JsonFields.nil, "", none⟩).2.2.1 rfl (by decide) rfl⟩

/-- C6: the CredentialGate (ApiKeyGuard) decision procedure, settled against
the spec-modelled guard: public routes admit unconditionally, a missing
credential denies with the credential-required message, a mismatched
credential denies with the invalid-credential message, and the configured
credential admits. -/
theorem apiKeyGuard_decision (configuredApiKey : String) (isPublic : Bool)
    (apiKey : Option String) :
    (isPublic = true →
      ApiKeyGuard.canActivate configuredApiKey isPublic apiKey = .allow)
  ∧ (isPublic = false → apiKey = none →
      ApiKeyGuard.canActivate configuredApiKey isPublic apiKey =
        .deny msgApiKeyRequired)
  ∧ (∀ k, isPublic = false → apiKey = some k → k ≠ configuredApiKey →
      ApiKeyGuard.canActivate configuredApiKey isPublic apiKey =
        .deny msgInvalidApiKey)
  ∧ (isPublic = false → apiKey = some configuredApiKey →
      ApiKeyGuard.canActivate configuredApiKey isPublic apiKey = .allow) := by
  refine ⟨?_, ?_, ?_, ?_⟩
  · intro h
    simp [ApiKeyGuard.canActivate, h]
  · intro h1 h2
    simp [ApiKeyGuard.canActivate, h1, h2]
  · intro k h1 h2 h3
    simp [ApiKeyGuard.canActivate, h1, h2, h3]
  · intro h1 h2
    simp [ApiKeyGuard.canActivate, h1, h2]

/-- Witness for C6 at concrete credentials: a public route admits even with a
wrong key; a missing key is denied as required; a wrong key is denied as
invalid; the configured key admits. -/
theorem apiKeyGuard_decision_witness :
    ApiKeyGuard.canActivate ("valid-api-key-12345") true (some ("wrong")) = .allow
  ∧ ApiKeyGuard.canActivate ("valid-api-key-12345") false none = .deny msgApiKeyRequired
  ∧ ApiKeyGuard.canActivate ("valid-api-key-12345") false (some ("invalid-api-key")) =
      .deny msgInvalidApiKey
  ∧ ApiKeyGuard.canActivate ("valid-api-key-12345") false (some ("valid-api-key-12345")) = .allow :=
  ⟨(apiKeyGuard_decision ("valid-api-key-12345") true (some ("wrong"))).1 rfl,
   (apiKeyGuard_decision ("valid-api-key-12345") false none).2.1 rfl rfl,
   (apiKeyGuard_decision ("valid-api-key-12345") false (some ("invalid-api-key"))).2.2.1
     "invalid-api-key" rfl rfl (by decide),
   (apiKeyGuard_decision ("valid-api-key-12345") false
     (some ("valid-api-key-12345"))).2.2.2 rfl rfl⟩

/-- C7: behaviour of the idempotency interceptor.  On a mutating request with
a non-empty key: a hit in the swept cache replays the stored snapshot
verbatim (the whole cached response, hence also the original record
identifier) without invoking the handler; the sweep precedes the lookup, so a
key whose entries are all older than the TTL is treated as a miss and the
handler runs; a non-mutating method or a missing/empty key bypasses the cache
entirely. -/
theorem idempotency_intercept_behaviour (α : Type)
    (cache : List (String × CachedResponse α)) (m : String) (key : String)
    (now : Nat) (handler : Except String α) :
    (mutatingMethods.contains m = true → key ≠ "" →
      ∀ entry, cacheLookup (cleanExpiredEntries cache now) key = some entry →
        intercept cache m (some key) now handler =
          ⟨cleanExpiredEntries cache now, .ok entry.data, false⟩)
  ∧ (mutatingMethods.contains m = true → key ≠ "" →
      (∀ e ∈ cache, e.1 = key → now - e.2.timestamp > idempotencyTTL) →
        (intercept cache m (some key) now handler).handlerInvoked = true)
  ∧ (mutatingMethods.contains m = false →
      intercept cache m (some key) now handler = ⟨cache, handler, true⟩)
  ∧ intercept cache m none now handler = ⟨cache, handler, true⟩
  ∧ intercept cache m (some ("")) now handler = ⟨cache, handler, true⟩ := by
  refine ⟨?_, ?_, ?_, ?_, ?_⟩
  · intro hm hk entry hhit
    have hmem : m ∈ mutatingMethods := by simpa using hm
    simp [intercept, hmem, truthy, isEmpty_false_of_ne key hk, hhit]
  · intro hm hk hexp
    have hmem : m ∈ mutatingMethods := by simpa using hm
    have hfind : List.find? (fun e => e.1 == key) (cleanExpiredEntries cache now) = none := by
      apply List.find?_eq_none.mpr
      intro e he
      simp only [cleanExpiredEntries, List.mem_filter] at he
      intro hbeq
      have hkey : e.1 = key := by simpa using hbeq
      have hexpired := hexp e he.1 hkey
      have h2 := he.2
      simp only [Bool.not_eq_true', decide_eq_false_iff_not, not_lt] at h2
      omega
    have hmiss : cacheLookup (cleanExpiredEntries cache now) key = none := by
      unfold cacheLookup
      rw [hfind]
      rfl
    cases handler <;>
      simp [intercept, hmem, truthy, isEmpty_false_of_ne key hk, hmiss]
  · intro hm
    have hmem : m ∉ mutatingMethods := by simpa using hm
    simp [intercept, hmem]
  · by_cases hm : m ∈ mutatingMethods <;> simp [intercept, hm, truthy]
  · by_cases hm : m ∈ mutatingMethods <;>
      simp [intercept, hm, truthy, String.isEmpty]

/-- Witness for C7 at a concrete cache: a fresh entry for key `k1` is
replayed without running the handler; an expired entry is swept and the
handler runs; a GET and a keyless POST bypass the cache. -/
theorem idempotency_intercept_behaviour_witness :
    intercept [(("k1" : String), (⟨7, 3⟩ : CachedResponse Nat))] "POST" (some ("k1")) 5 (.ok 9) =
      ⟨[(("k1" : String), (⟨7, 3⟩ : CachedResponse Nat))], .ok 7, false⟩
  ∧ (intercept [(("k1" : String), (⟨7, 3⟩ : CachedResponse Nat))] "POST" (some ("k1"))
      (3 + idempotencyTTL + 1) (.ok 9)).handlerInvoked = true
  ∧ intercept [(("k1" : String), (⟨7, 3⟩ : CachedResponse Nat))] "GET" (some ("k1")) 5 (.ok 9) =
      ⟨[(("k1" : String), (⟨7, 3⟩ : CachedResponse Nat))], .ok 9, true⟩
  ∧ intercept [(("k1" : String), (⟨7, 3⟩ : CachedResponse Nat))] "POST" none 5 (.ok 9) =
      ⟨[(("k1" : String), (⟨7, 3⟩ : CachedResponse Nat))], .ok 9, true⟩ :=
  ⟨(idempotency_intercept_behaviour Nat [(("k1" : String), ⟨7, 3⟩)] "POST" "k1" 5 (.ok 9)).1
     (by decide) (by decide) ⟨7, 3⟩ (by decide),
   (idempotency_intercept_behaviour Nat [(("k1" : String), ⟨7, 3⟩)] "POST" "k1"
     (3 + idempotencyTTL + 1) (.ok 9)).2.1 (by decide) (by decide)
     (by intro e he hk; simp at he; rw [he]; simp only [idempotencyTTL]; omega),
   (idempotency_intercept_behaviour Nat [(("k1" : String), ⟨7, 3⟩)] "GET" "k1" 5 (.ok 9)).2.2.1
     (by decide),
   (idempotency_intercept_behaviour Nat [(("k1" : String), ⟨7, 3⟩)] "POST" "k1" 5 (.ok 9)).2.2.2.1⟩

/-- C10: when the downstream handler terminates with an error on a mutating
request with a fresh non-empty idempotency key, the interceptor stores no
cache entry under the key — the cache afterwards is exactly the swept cache,
it contains no entry for the key, and the error propagates with the handler
having run. -/
theorem intercept_error_not_cached (α : Type)
    (cache : List (String × CachedResponse α)) (m : String) (key : String)
    (now : Nat) (err : String)
    (hm : mutatingMethods.contains m = true) (hk : key ≠ "")
    (hmiss : cacheLookup (cleanExpiredEntries cache now) key = none) :
    intercept cache m (some key) now (.error err) =
      ⟨cleanExpiredEntries cache now, .error err, true⟩
  ∧ cacheLookup (intercept cache m (some key) now (.error err)).cache key = none := by
  have hmem : m ∈ mutatingMethods := by simpa using hm
  have hres : intercept cache m (some key) now (.error err) =
      ⟨cleanExpiredEntries cache now, .error err, true⟩ := by
    simp [intercept, hmem, truthy, isEmpty_false_of_ne key hk, hmiss]
  exact ⟨hres, by rw [hres]; exact hmiss⟩

/-- Witness for C10 at a concrete cache: a failing handler under key `k1`
leaves the cache without an entry for `k1` and propagates the error. -/
theorem intercept_error_not_cached_witness :
    intercept ([] : List (String × CachedResponse Nat)) "POST" (some ("k1")) 5
      (.error ("boom")) = ⟨[], .error ("boom"), true⟩
  ∧ cacheLookup (intercept ([] : List (String × CachedResponse Nat)) "POST"
      (some ("k1")) 5 (.error ("boom"))).cache ("k1") = none :=
  intercept_error_not_cached Nat [] "POST" "k1" 5 ("boom") (by decide) (by decide) (by decide)

/-- The record `create` constructs before saving (step 2 of the ingestion
contract), with `receivedAt` as assigned by the insert. -/
def newWebhook (freshId : String) (dto : CreateWebhookDto)
    (signature idempotencyKey : Option String) (now : Nat) : Webhook :=
  { id := freshId, source := dto.source, event := dto.event,
    payload := dto.payload,
    signature := if truthy signature then signature else none,
    idempotencyKey := if truthy idempotencyKey then idempotencyKey else none,
    receivedAt := now, status := .pending }

theorem create_found (repoAtLookup repoAtSave : List Webhook) (freshId : String)
    (dto : CreateWebhookDto) (sig : Option String) (key : String) (now : Nat)
    (hkey : key ≠ "") (e : Webhook) (hL : findByKey repoAtLookup key = some e) :
    create repoAtLookup repoAtSave freshId dto sig (some key) now =
      .ok ⟨repoAtLookup, e, false, [DbOp.findByIdempotencyKey key]⟩ := by
  have htr : truthy (some key) = true := by
    simp [truthy, isEmpty_false_of_ne key hkey]
  simp [create, htr, hL]

theorem create_not_found (repoAtLookup repoAtSave : List Webhook)
    (freshId : String) (dto : CreateWebhookDto) (sig : Option String)
    (key : String) (now : Nat) (hkey : key ≠ "")
    (hL : findByKey repoAtLookup key = none)
    (hS : findByKey repoAtSave key = none) :
    create repoAtLookup repoAtSave freshId dto sig (some key) now =
      .ok ⟨repoAtSave ++ [newWebhook freshId dto sig (some key) now],
           newWebhook freshId dto sig (some key) now, true,
           [DbOp.findByIdempotencyKey key,
            DbOp.insert (newWebhook freshId dto sig (some key) now)]⟩ := by
  have htr : truthy (some key) = true := by
    simp [truthy, isEmpty_false_of_ne key hkey]
  simp only [create, htr, if_true, hL, Option.getD_some]
  simp only [dbInsert, htr, if_true, hS, Option.isSome_none, Bool.false_eq_true, if_false]
  simp [newWebhook, htr]

theorem create_conflict (repoAtLookup repoAtSave : List Webhook)
    (freshId : String) (dto : CreateWebhookDto) (sig : Option String)
    (key : String) (now : Nat) (hkey : key ≠ "")
    (hL : findByKey repoAtLookup key = none)
    (hS : (findByKey repoAtSave key).isSome = true) :
    create repoAtLookup repoAtSave freshId dto sig (some key) now =
      .error DbError.uniqueViolation := by
  have htr : truthy (some key) = true := by
    simp [truthy, isEmpty_false_of_ne key hkey]
  simp only [create, htr, if_true, hL, Option.getD_some]
  simp only [dbInsert, htr, if_true, hS]

theorem create_falsy_key (repoAtLookup repoAtSave : List Webhook)
    (freshId : String) (dto : CreateWebhookDto) (sig : Option String)
    (idempotencyKey : Option String) (now : Nat)
    (hkey : truthy idempotencyKey = false) :
    create repoAtLookup repoAtSave freshId dto sig idempotencyKey now =
      .ok ⟨repoAtSave ++ [newWebhook freshId dto sig idempotencyKey now],
           newWebhook freshId dto sig idempotencyKey now, true,
           [DbOp.insert (newWebhook freshId dto sig idempotencyKey now)]⟩ := by
  simp only [create, hkey, Bool.false_eq_true, if_false]
  simp only [dbInsert, hkey, Bool.false_eq_true, if_false]
  simp [newWebhook, hkey]

theorem findByKey_append_fresh (repo : List Webhook) (w : Webhook) (key : String)
    (hrepo : findByKey repo key = none) (hw : w.idempotencyKey = some key) :
    findByKey (repo ++ [w]) key = some w := by
  unfold findByKey at *
  rw [List.find?_append, hrepo]
  simp [List.find?, hw]

/-- C1: two sequential `create` calls with the same non-empty idempotency key,
where the first call persisted a record (`isNew = true`): the second call
returns `isNew = false` with the very record the first call persisted (same
`id`), leaves the repository unchanged, and performs no write — its only
persistence call is the key lookup. -/
theorem create_idempotent_second_call (repo : List Webhook)
    (freshId1 freshId2 : String) (dto1 dto2 : CreateWebhookDto)
    (sig1 sig2 : Option String) (key : String) (now1 now2 : Nat)
    (r1 : CreateResult) (hkey : key ≠ "")
    (h1 : create repo repo freshId1 dto1 sig1 (some key) now1 = .ok r1)
    (hnew : r1.isNew = true) :
    create r1.repo r1.repo freshId2 dto2 sig2 (some key) now2 =
      .ok ⟨r1.repo, r1.webhook, false, [DbOp.findByIdempotencyKey key]⟩ := by
  have htr : truthy (some key) = true := by
    simp [truthy, isEmpty_false_of_ne key hkey]
  rcases hfind : findByKey repo key with _ | e
  · rw [create_not_found repo repo freshId1 dto1 sig1 key now1 hkey hfind hfind] at h1
    have hr1 : r1 = ⟨repo ++ [newWebhook freshId1 dto1 sig1 (some key) now1],
        newWebhook freshId1 dto1 sig1 (some key) now1, true,
        [DbOp.findByIdempotencyKey key,
         DbOp.insert (newWebhook freshId1 dto1 sig1 (some key) now1)]⟩ :=
      (Except.ok.inj h1).symm
    subst hr1
    have hw : (newWebhook freshId1 dto1 sig1 (some key) now1).idempotencyKey = some key := by
      simp [newWebhook, htr]
    have hfound := findByKey_append_fresh repo _ key hfind hw
    exact create_found _ _ freshId2 dto2 sig2 key now2 hkey _ hfound
  · rw [create_found repo repo freshId1 dto1 sig1 key now1 hkey e hfind] at h1
    have hr1 : r1 = ⟨repo, e, false, [DbOp.findByIdempotencyKey key]⟩ :=
      (Except.ok.inj h1).symm
    rw [hr1] at hnew
    simp at hnew

/-- A sample validated request body. -/
def sampleDto : CreateWebhookDto := ⟨"stripe", "payment.completed", "p1"⟩

/-- The record the sample first call persists under key `k1`. -/
def sampleSaved : Webhook :=
  ⟨"id-1", "stripe", "payment.completed", "p1", none, some ("k1"), 1,
   WebhookStatus.pending⟩

/-- Witness for C1 at a concrete repository: after a first call persisted
`sampleSaved` under key `k1`, a second call with the same key returns that
record with `isNew = false` and performs only the lookup. -/
theorem create_idempotent_second_call_witness :
    create [sampleSaved] [sampleSaved] "id-2" sampleDto none (some ("k1")) 7 =
      .ok ⟨[sampleSaved], sampleSaved, false, [DbOp.findByIdempotencyKey ("k1")]⟩ :=
  create_idempotent_second_call [] "id-1" "id-2" sampleDto sampleDto none none
    "k1" 1 7
    ⟨[sampleSaved], sampleSaved, true,
     [DbOp.findByIdempotencyKey ("k1"), DbOp.insert sampleSaved]⟩
    (by decide) (by decide) rfl

/-- C2 (evaluation of the code at the failing input): under the §5 race — the
idempotency lookup observed a repository without key `k1`, a concurrent
duplicate insert landed before the save — `create` propagates the
unique-constraint violation from the persistence collaborator instead of
re-fetching the existing record and returning it with `isNew = false`; the
source wraps `save` in no try/catch (`ConflictException` is imported but never
used). -/
theorem create_conflict_surfaces_error :
    create [] [sampleSaved] "id-2" sampleDto none (some ("k1")) 7 =
      .error DbError.uniqueViolation := by decide

/-- C9: a `create` call whose idempotency key is the empty string behaves
exactly like one with an absent key: no idempotency lookup is issued to the
persistence collaborator (the operation trace holds only the insert), the
persisted record's `idempotencyKey` is null, and the result is `isNew =
true`. -/
theorem create_empty_key_behaves_as_absent (repo : List Webhook)
    (freshId : String) (dto : CreateWebhookDto) (sig : Option String)
    (now : Nat) :
    create repo repo freshId dto sig (some ("")) now =
      create repo repo freshId dto sig none now
  ∧ create repo repo freshId dto sig (some ("")) now =
      .ok ⟨repo ++ [newWebhook freshId dto sig (some ("")) now],
           newWebhook freshId dto sig (some ("")) now, true,
           [DbOp.insert (newWebhook freshId dto sig (some ("")) now)]⟩
  ∧ (newWebhook freshId dto sig (some ("")) now).idempotencyKey = none := by
  have h1 : truthy (some ("")) = false := by simp [truthy, String.isEmpty]
  have h2 : truthy (none : Option String) = false := rfl
  refine ⟨?_, create_falsy_key _ _ _ _ _ _ _ h1, by simp [newWebhook, h1]⟩
  rw [create_falsy_key _ _ _ _ _ _ _ h1, create_falsy_key _ _ _ _ _ _ _ h2]
  simp [newWebhook, h1]

theorem nat_ceil_div (t l : Nat) (hl : 1 ≤ l) :
    ((t + l - 1) / l : Nat) = Nat.ceil ((t : ℚ) / (l : ℚ)) := by
  have hl0 : (0 : ℚ) < (l : ℚ) := by exact_mod_cast hl
  apply le_antisymm
  · have hx : (t : ℚ) / l ≤ (Nat.ceil ((t : ℚ) / l) : ℚ) := Nat.le_ceil _
    have ht : (t : ℚ) ≤ (Nat.ceil ((t : ℚ) / l) : ℚ) * l := (div_le_iff₀ hl0).mp hx
    have ht' : t ≤ Nat.ceil ((t : ℚ) / l) * l := by exact_mod_cast ht
    rw [Nat.div_le_iff_le_mul_add_pred (by omega)]
    have := Nat.mul_comm (Nat.ceil ((t : ℚ) / l)) l
    omega
  · rw [Nat.ceil_le, div_le_iff₀ hl0]
    have h1 : t + l - 1 < (t + l - 1) / l * l + l := Nat.lt_div_mul_add (by omega)
    have h2 : t ≤ (t + l - 1) / l * l := by omega
    exact_mod_cast h2

theorem filter_matchesQuery_none (repo : List Webhook) (p l : Option Nat) :
    repo.filter (matchesQuery ⟨p, l, none, none⟩) = repo := by
  simp [matchesQuery, truthy]

/-- A store of 25 records with pairwise distinct reception times `0, …, 24`. -/
def records25 : List Webhook :=
  (List.range 25).map
    (fun i => ⟨"", "s", "e", "p", none, none, i, WebhookStatus.pending⟩)

/-- C8: `findAll` paginates the records ordered by `receivedAt` descending:
at most `limit` records are returned; the returned page is sorted newest
first; page `p` consists of the records after the first `(p - 1) * limit` of
the descending order (the page-1 listing with an enlarged limit, with that
prefix dropped); the metadata reports the full filtered count, the requested
page and limit, and `totalPages = ceil(total / limit)`; and concretely, with
25 stored records and `limit = 10`, `totalPages = 3` and page 3 holds exactly
the remaining 5 records, newest first. -/
theorem findAll_pagination (repo : List Webhook) (page limit : Nat)
    (hp : 1 ≤ page) (hl : 1 ≤ limit) :
    (findAll repo ⟨some page, some limit, none, none⟩).data.length ≤ limit
  ∧ List.Sorted (fun a b => b ≤ a)
      ((findAll repo ⟨some page, some limit, none, none⟩).data.map
        (fun r => r.receivedAt))
  ∧ (findAll repo ⟨some page, some limit, none, none⟩).data =
      ((findAll repo ⟨some 1, some (page * limit), none, none⟩).data).drop
        ((page - 1) * limit)
  ∧ (findAll repo ⟨some page, some limit, none, none⟩).meta =
      ⟨repo.length, page, limit, Nat.ceil ((repo.length : ℚ) / (limit : ℚ))⟩
  ∧ ((findAll records25 ⟨some 3, some 10, none, none⟩).data.map
        (fun r => r.receivedAt) = [4, 3, 2, 1, 0]
     ∧ (findAll records25 ⟨some 3, some 10, none, none⟩).meta = ⟨25, 3, 10, 3⟩) := by
  refine ⟨?_, ?_, ?_, ?_, by decide, by decide⟩
  · simp only [findAll, Option.getD_some, filter_matchesQuery_none]
    simp [List.length_take]
  · simp only [findAll, Option.getD_some, filter_matchesQuery_none]
    have hsorted := List.sorted_insertionSort receivedDesc repo
    have hsub : (((repo.insertionSort receivedDesc).drop ((page - 1) * limit)).take limit).Sublist
        (repo.insertionSort receivedDesc) :=
      (List.take_sublist _ _).trans (List.drop_sublist _ _)
    have hpaged : List.Pairwise receivedDesc
        (((repo.insertionSort receivedDesc).drop ((page - 1) * limit)).take limit) :=
      List.Pairwise.sublist hsub hsorted
    rw [List.map_map]
    exact List.Pairwise.map _ (fun a b h => h) hpaged
  · simp only [findAll, Option.getD_some, filter_matchesQuery_none]
    rw [Nat.zero_mul, List.drop_zero, ← List.map_drop, List.drop_take]
    have hml : page * limit - (page - 1) * limit = limit := by
      rcases page with _ | p
      · omega
      · rw [Nat.succ_sub_one, Nat.succ_mul]
        omega
    rw [hml]
  · simp only [findAll, Option.getD_some, filter_matchesQuery_none]
    rw [nat_ceil_div repo.length limit hl]

/-- Witness for C8 at the concrete 25-record store: page 3 with limit 10
returns the 5 oldest records newest-first and `totalPages = 3`. -/
theorem findAll_pagination_witness :
    (findAll records25 ⟨some 3, some 10, none, none⟩).data.map
      (fun r => r.receivedAt) = [4, 3, 2, 1, 0]
  ∧ (findAll records25 ⟨some 3, some 10, none, none⟩).meta = ⟨25, 3, 10, 3⟩ :=
  (findAll_pagination records25 3 10 (by decide) (by decide)).2.2.2.2
